import Mathlib

/-!
A shallow embedding of the gokyle/filecache package (filecache.go and
filecache_118.go) together with proofs about its cache-management
operations.

Modelling conventions:
* machine bytes are `Nat`s in a `List`;
* `time.Time` instants and `time.Duration` values are `Int` nanoseconds;
* the filesystem boundary (`os.Stat`, `os.ReadFile`) is a `Disk` record of
  two functions fixed for the duration of one operation — `none` stands
  for an error return;
* the Go map `map[string]*cacheItem` is an association list; a `none`
  items field stands for a nil map (the cache before `Start`/after `Stop`);
* the ingestion channel `in chan string` is summarised by its state
  (`nil`, open, closed) and a channel send is given Go's semantics:
  sending on a nil channel blocks forever, sending on a closed channel
  panics;
* every operation threads the cache value explicitly and takes the
  current instant `now` where the Go code calls `time.Now()`.
-/

namespace Filecache

abbrev Bytes := List Nat

/-- Result of `os.Stat`: size, modification time and directory flag. -/
structure FileInfo where
  size : Int
  modTime : Int
  isDir : Bool
deriving DecidableEq, Repr

/-- The disk boundary: `stat` models `os.Stat` and `read` models
`os.ReadFile`/`ioutil.ReadFile`; `none` is an error return. -/
structure Disk where
  stat : String → Option FileInfo
  read : String → Option Bytes

/-- `cacheItem` from filecache.go (the mutex is meaningless in a
sequential embedding and is omitted). -/
structure CacheItem where
  content : Bytes
  Size : Int
  Lastaccess : Int
  Modified : Int
deriving DecidableEq, Repr

/-- The package's error values, plus `osError` standing for any error
propagated unchanged from the stat/read boundary. -/
inductive CacheErr where
  | invalidCacheItem
  | itemIsDirectory
  | itemNotInCache
  | itemTooLarge
  | writeIncomplete
  | osError
deriving DecidableEq, Repr

/-- The state of the `in chan string` ingestion channel. -/
inductive ChanState where
  | nilChan
  | openChan
  | closedChan
deriving DecidableEq, Repr

/-- Go semantics of `ch <- v` depending on the channel's state. -/
inductive SendOutcome where
  | delivered
  | blockedForever
  | panicked
deriving DecidableEq, Repr

def chanSend : ChanState → SendOutcome
  | ChanState.nilChan => SendOutcome.blockedForever
  | ChanState.openChan => SendOutcome.delivered
  | ChanState.closedChan => SendOutcome.panicked

/-- `FileCache` from filecache.go.  `items = none` is the nil map. -/
structure FileCache where
  items : Option (List (String × CacheItem))
  inChan : ChanState
  MaxItems : Int
  MaxSize : Int
  ExpireItem : Int
  Every : Int
deriving DecidableEq, Repr

/-- Go map read `items[name]`: the first (unique) binding of the key. -/
def lookupItem (l : List (String × CacheItem)) (name : String) : Option CacheItem :=
  (l.find? (fun p => p.1 == name)).map (fun p => p.2)

/-- Go map `delete(items, name)` on the underlying association list. -/
def removeKey (l : List (String × CacheItem)) (name : String) : List (String × CacheItem) :=
  l.filter (fun p => p.1 != name)

/-- Go map assignment `items[name] = itm` on the association list. -/
def insertKey (l : List (String × CacheItem)) (name : String) (itm : CacheItem) :
    List (String × CacheItem) :=
  removeKey l name ++ [(name, itm)]

/-- The key set of the association list. -/
def keysOf (l : List (String × CacheItem)) : List String :=
  l.map Prod.fst

/-- `isCacheNull` from filecache.go: the items map is nil. -/
def isCacheNull (st : FileCache) : Bool :=
  st.items.isNone

/-- `getItem` from filecache.go: nil-map guard then map lookup; the
Go pair `(itm, ok)` is collapsed into an `Option`. -/
def getItem (st : FileCache) (name : String) : Option CacheItem :=
  match st.items with
  | none => none
  | some l => lookupItem l name

/-- `Size` from filecache.go: `len(cache.items)` (0 for the nil map). -/
def Size (st : FileCache) : Nat :=
  match st.items with
  | none => 0
  | some l => l.length

/-- `deleteItem` from filecache.go: delete only when `getItem` finds
the entry. -/
def deleteItem (st : FileCache) (name : String) : FileCache :=
  match st.items with
  | none => st
  | some l =>
    if (lookupItem l name).isSome then { st with items := some (removeKey l name) } else st

/-- `changed` from filecache.go: missing entry, failed stat, or a disk
modification time different from the stored `Modified` all count as
changed (`WasModified` returns `Modified.Equal(fi.ModTime())`). -/
def changed (d : Disk) (st : FileCache) (name : String) : Bool :=
  match getItem st name with
  | none => true
  | some itm =>
    match d.stat name with
    | none => true
    | some fi => itm.Modified != fi.modTime

def nsPerSec : Int := 1000000000

/-- Rounding of a nanosecond duration to whole seconds, as performed by
`fmt.Sprintf("%0.0f", dur.Seconds())`: round to nearest, ties to even. -/
def roundSec (ns : Int) : Int :=
  let q := Int.fdiv ns nsPerSec
  let r := ns - q * nsPerSec
  if 2 * r < nsPerSec then q
  else if nsPerSec < 2 * r then q + 1
  else if q % 2 = 0 then q else q + 1

/-- `expired` from filecache.go: the seconds since `Lastaccess`, rounded
to a whole number, have reached `ExpireItem`. -/
def expired (st : FileCache) (now : Int) (name : String) : Bool :=
  match getItem st name with
  | none => true
  | some itm =>
    let sec := roundSec (now - itm.Lastaccess)
    if st.ExpireItem ≤ sec then true else false

/-- `itemExpired` from filecache.go. -/
def itemExpired (d : Disk) (st : FileCache) (now : Int) (name : String) : Bool :=
  if changed d st name then true
  else if st.ExpireItem != 0 && expired st now name then true
  else false

/-- `InCache` from filecache.go: on `changed` the entry is deleted and
`false` returned; otherwise the raw map read `items[name]` decides. -/
def InCache (d : Disk) (st : FileCache) (name : String) : Bool × FileCache :=
  if changed d st name then (false, deleteItem st name)
  else
    (match st.items with
     | none => false
     | some l => (lookupItem l name).isSome, st)

/-- `cacheFile` from filecache_118.go (identical to the filecache.go
variant): stat, reject directories and oversized files, read, build the
item with `Size` taken from the stat result. -/
def cacheFile (d : Disk) (now : Int) (path : String) (maxSize : Int) :
    Except CacheErr CacheItem :=
  match d.stat path with
  | none => Except.error CacheErr.osError
  | some fi =>
    if fi.isDir then Except.error CacheErr.itemIsDirectory
    else if maxSize < fi.size then Except.error CacheErr.itemTooLarge
    else
      match d.read path with
      | none => Except.error CacheErr.osError
      | some content =>
        Except.ok { content := content, Size := fi.size, Modified := fi.modTime,
                    Lastaccess := now }

/-- Go map assignment wrapper: replace the whole items map. -/
def setItems (st : FileCache) (l : List (String × CacheItem)) : FileCache :=
  { st with items := some l }

/-- The tail of `addItem` after a successful `cacheFile`: the Go lines
`cache.items[name] = itm` (guarded by `cache.items != nil`) followed by
the verification `if !cache.InCache(name)` (whose own stale-entry
deletion side effect is threaded). -/
def addItemInstall (d : Disk) (st2 : FileCache) (name : String) (itm : CacheItem) :
    FileCache × Option CacheErr :=
  match st2.items with
  | none => (st2, none)
  | some l =>
    let st3 := setItems st2 (insertKey l name itm)
    if !(InCache d st3 name).1 then ((InCache d st3 name).2, some CacheErr.itemNotInCache)
    else ((InCache d st3 name).2, none)

/-- `addItem` from filecache.go, with the two `InCache` calls (each of
which may delete a stale entry as a side effect) threaded explicitly. -/
def addItem (d : Disk) (now : Int) (st : FileCache) (name : String) :
    FileCache × Option CacheErr :=
  if isCacheNull st then (st, none)
  else
    let ok := (InCache d st name).1
    let st1 := (InCache d st name).2
    let exp := itemExpired d st1 now name
    if ok && !exp then (st1, none)
    else
      let st2 := if ok then deleteItem st1 name else st1
      match cacheFile d now name st.MaxSize with
      | Except.error e => (st2, some e)
      | Except.ok itm => addItemInstall d st2 name itm

/-- The scan loop inside `expireOldest`, over one iteration order of the
Go map; the accumulator is `(oldest, oldestName)`. -/
def oldestScan (l : List (String × CacheItem)) (force : Bool) (acc : Int × String) :
    Int × String :=
  l.foldl
    (fun a p =>
      if force && (a.2 == "") then (p.2.Lastaccess, p.1)
      else if p.2.Lastaccess < a.1 then (p.2.Lastaccess, p.1)
      else a)
    acc

/-- `expireOldest` from filecache.go: scan for the oldest `Lastaccess`
(starting from `time.Now()` when not forced) and delete it when a name
was selected. -/
def expireOldest (st : FileCache) (now : Int) (force : Bool) : FileCache :=
  let l := st.items.getD []
  let r := oldestScan l force (now, "")
  if r.2 != "" then deleteItem st r.2 else st

/-- `Cache` from filecache.go: pre-insertion capacity check, then a send
on the ingestion channel; the outcome of the send is surfaced. -/
def Cache (st : FileCache) (now : Int) (_name : String) : FileCache × SendOutcome :=
  let st1 := if (Size st : Int) = st.MaxItems then expireOldest st now true else st
  (st1, chanSend st1.inChan)

/-- The asynchronous install triggered by a delivered `Cache` send: the
`itemListener` goroutine runs `addItem` on the delivered name. -/
def cacheAsync (d : Disk) (now : Int) (st : FileCache) (name : String) :
    FileCache × SendOutcome :=
  let r := Cache st now name
  match r.2 with
  | SendOutcome.delivered => ((addItem d now r.1 name).1, r.2)
  | _ => r

/-- `CacheNow` from filecache.go: the same capacity check followed by a
synchronous `addItem`. -/
def CacheNow (d : Disk) (now : Int) (st : FileCache) (name : String) :
    FileCache × Option CacheErr :=
  let st1 := if (Size st : Int) = st.MaxItems then expireOldest st now true else st
  addItem d now st1 name

/-- One tick of the `vacuum` loop: purge expired entries, then evict the
oldest until `Size() <= MaxItems`.  The Go `for size > MaxItems` loop is
run with fuel equal to the store size, which is enough whenever the loop
terminates (each forced eviction removes an entry). -/
def correctCapacity (now : Int) : Nat → FileCache → FileCache
  | 0, st => st
  | Nat.succ n, st =>
    if st.MaxItems < (Size st : Int) then correctCapacity now n (expireOldest st now true)
    else st

/-- The expired-entry purge of one `vacuum` tick, iterating the key
snapshot and re-checking `itemExpired` against the current state. -/
def sweepExpired (d : Disk) (now : Int) (st : FileCache) : FileCache :=
  let ns := keysOf (st.items.getD [])
  ns.foldl (fun s n => if itemExpired d s now n then deleteItem s n else s) st

/-- One complete maintenance sweep of `vacuum` (the nil-map guard, the
expired purge, and the over-capacity correction). -/
def vacuumTick (d : Disk) (now : Int) (st : FileCache) : FileCache :=
  if isCacheNull st then st
  else
    let st1 := sweepExpired d now st
    correctCapacity now (Size st1) st1

/-- `Access` on a cache item: `Lastaccess = time.Now()`, content
returned.  The in-place pointer mutation is modelled by rewriting the
stored entry, preserving its position. -/
def touchItem (st : FileCache) (now : Int) (name : String) : FileCache :=
  match st.items with
  | none => st
  | some l =>
    { st with
      items := some (l.map (fun p => if p.1 == name then (p.1, { p.2 with Lastaccess := now }) else p)) }

/-- `GetItem` from filecache.go: `getItem` then `Access` (which bumps
`Lastaccess`). -/
def GetItem (st : FileCache) (now : Int) (name : String) : Option Bytes × FileCache :=
  match getItem st name with
  | none => (none, st)
  | some itm => (some itm.content, touchItem st now name)

/-- `ReadFile` from filecache_118.go.  The hit path serves from the
cache; the miss path spawns `go cache.Cache(name)` (whose channel-send
outcome is surfaced as the fourth component) and reads from disk,
optionally tagging the result with `ItemNotInCache`. -/
def ReadFile (d : Disk) (now : Int) (squelch : Bool) (st : FileCache) (name : String) :
    Option Bytes × Option CacheErr × FileCache × Option SendOutcome :=
  let inc := (InCache d st name).1
  let st1 := (InCache d st name).2
  if inc then
    let g := GetItem st1 now name
    (g.1, none, g.2, none)
  else
    let c := Cache st1 now name
    match d.read name with
    | none => (none, some CacheErr.osError, c.1, some c.2)
    | some content =>
      (some content, if squelch then none else some CacheErr.itemNotInCache, c.1, some c.2)

/-- `Remove` from filecache.go: raw map read, delete, re-check; the
declared error result is never assigned. -/
def Remove (st : FileCache) (name : String) : Bool × Option CacheErr × FileCache :=
  let ok := match st.items with
            | none => false
            | some l => (lookupItem l name).isSome
  if !ok then (false, none, st)
  else
    let st1 := deleteItem st name
    let valid := (getItem st1 name).isSome
    (if valid then false else ok, none, st1)

/-- `Stop` from filecache.go: close the channel when it was ever
created, clear and release the store. -/
def Stop (st : FileCache) : FileCache :=
  { st with
    inChan := match st.inChan with
              | ChanState.nilChan => ChanState.nilChan
              | _ => ChanState.closedChan,
    items := none }

/-- `NewDefaultCache` from filecache.go. -/
def NewDefaultCache : FileCache :=
  { items := none, inChan := ChanState.nilChan, MaxItems := 32,
    MaxSize := 16 * 1048576, ExpireItem := 300, Every := 60 }

/-- `Start` from filecache.go, restricted to its state effect: allocate
the store and open a fresh ingestion channel. -/
def Start (st : FileCache) : FileCache :=
  { st with items := some [], inChan := ChanState.openChan }

/-- Well-formedness of a store's association list: each key is bound
once (as in a Go map), and no key is the empty string (a key enters the
store only after a successful `os.Stat`, which always fails on the
empty path). -/
def goodKeysL (l : List (String × CacheItem)) : Prop :=
  (∀ p ∈ l, p.1 ≠ "") ∧ (keysOf l).Nodup

/-- Well-formedness of every reachable cache state's store. -/
def goodKeys (st : FileCache) : Prop :=
  match st.items with
  | none => True
  | some l => goodKeysL l

instance (l : List (String × CacheItem)) : Decidable (goodKeysL l) :=
  inferInstanceAs (Decidable (_ ∧ _))

instance (st : FileCache) : Decidable (goodKeys st) := by
  unfold goodKeys
  match st.items with
  | none => exact inferInstanceAs (Decidable True)
  | some l => exact inferInstanceAs (Decidable (goodKeysL l))

/-! Concrete disks and cache states used to evaluate the operations on
specific inputs. -/

/-- A disk carrying one regular 3-byte file at path f. -/
def dF : Disk :=
  { stat := fun p => if p = "f" then some { size := 3, modTime := 1, isDir := false } else none,
    read := fun p => if p = "f" then some [1, 2, 3] else none }

/-- A disk whose stat-reported size for f (5 bytes) disagrees with the
bytes actually read (3 bytes), as when the file changes mid-read. -/
def dMid : Disk :=
  { stat := fun p => if p = "f" then some { size := 5, modTime := 1, isDir := false } else none,
    read := fun p => if p = "f" then some [9, 9, 9] else none }

/-- An active, empty cache configured with MaxItems = 0. -/
def stEmpty0 : FileCache :=
  { items := some [], inChan := ChanState.openChan, MaxItems := 0, MaxSize := 100,
    ExpireItem := 0, Every := 0 }

/-- The entry produced by loading f from dF at instant 0. -/
def itmF : CacheItem :=
  { content := [1, 2, 3], Size := 3, Lastaccess := 0, Modified := 1 }

/-- An active cache holding f (loaded at instant 0) with a five-minute
ExpireItem. -/
def stAged : FileCache :=
  { items := some [("f", itmF)], inChan := ChanState.openChan, MaxItems := 32,
    MaxSize := 100, ExpireItem := 300, Every := 60 }

/-- Two hours, in nanoseconds. -/
def twoHours : Int := 7200 * nsPerSec

/-- A default cache that has been started and then stopped: the items
map is nil again and the ingestion channel is closed. -/
def stStopped : FileCache := Stop (Start NewDefaultCache)

/-- The entry produced by loading f from dMid: stat size 5 recorded,
but only three bytes read. -/
def itmMid : CacheItem :=
  { content := [9, 9, 9], Size := 5, Lastaccess := 0, Modified := 1 }

/-- An entry whose stored Modified (5) disagrees with dF's current
modification time (1): the file has changed on disk since caching. -/
def itmChanged : CacheItem :=
  { content := [1, 2, 3], Size := 3, Lastaccess := 0, Modified := 5 }

/-- An active cache holding the out-of-date entry for f. -/
def stChanged : FileCache :=
  { items := some [("f", itmChanged)], inChan := ChanState.openChan, MaxItems := 32,
    MaxSize := 100, ExpireItem := 300, Every := 60 }

/-- A disk with two fresh one-byte files a and b. -/
def dAB : Disk :=
  { stat := fun p =>
      if p = "a" ∨ p = "b" then some { size := 1, modTime := 1, isDir := false } else none,
    read := fun p => if p = "a" ∨ p = "b" then some [7] else none }

def itmA : CacheItem := { content := [7], Size := 1, Lastaccess := 0, Modified := 1 }

def itmB : CacheItem := { content := [7], Size := 1, Lastaccess := 2, Modified := 1 }

/-- Two fresh entries but MaxItems = 1: a maintenance sweep must evict
down to one entry. -/
def stTwo : FileCache :=
  { items := some [("a", itmA), ("b", itmB)], inChan := ChanState.openChan, MaxItems := 1,
    MaxSize := 100, ExpireItem := 0, Every := 1 }

/-- Two fresh entries with the store exactly at capacity MaxItems = 2. -/
def stTwoFull : FileCache :=
  { items := some [("a", itmA), ("b", itmB)], inChan := ChanState.openChan, MaxItems := 2,
    MaxSize := 100, ExpireItem := 0, Every := 0 }

/-- An empty active cache with MaxItems = 5, the start state of the
thousand-file insertion scenario. -/
def startFive : FileCache :=
  { items := some [], inChan := ChanState.openChan, MaxItems := 5,
    MaxSize := 16 * 1048576, ExpireItem := 300, Every := 60 }

/-! Association-list lemmas for the store representation. -/

theorem lookupItem_cons_pos {rest : List (String × CacheItem)} {p : String × CacheItem}
    {n : String} (h : p.1 = n) : lookupItem (p :: rest) n = some p.2 := by
  have hf : List.find? (fun q : String × CacheItem => q.1 == n) (p :: rest) = some p :=
    List.find?_cons_of_pos _ (by simpa using h)
  unfold lookupItem
  rw [hf]
  rfl

theorem lookupItem_cons_neg {rest : List (String × CacheItem)} {p : String × CacheItem}
    {n : String} (h : p.1 ≠ n) : lookupItem (p :: rest) n = lookupItem rest n := by
  have hf : List.find? (fun q : String × CacheItem => q.1 == n) (p :: rest) =
      List.find? (fun q : String × CacheItem => q.1 == n) rest :=
    List.find?_cons_of_neg _ (by simpa using h)
  unfold lookupItem
  rw [hf]

theorem lookupItem_isSome_of_mem {l : List (String × CacheItem)} {n : String}
    {itm : CacheItem} (h : (n, itm) ∈ l) : (lookupItem l n).isSome = true := by
  induction l with
  | nil => cases h
  | cons p rest ih =>
    rw [List.mem_cons] at h
    by_cases hp : p.1 = n
    · rw [lookupItem_cons_pos hp]
      rfl
    · rw [lookupItem_cons_neg hp]
      rcases h with h | h
      · exact absurd (by rw [← h]) hp
      · exact ih h

theorem mem_keysOf {l : List (String × CacheItem)} {n : String} :
    n ∈ keysOf l ↔ ∃ itm, (n, itm) ∈ l := by
  unfold keysOf
  constructor
  · intro h
    obtain ⟨⟨a, b⟩, hp, hfst⟩ := List.mem_map.mp h
    subst hfst
    exact ⟨b, hp⟩
  · intro ⟨itm, hmem⟩
    exact List.mem_map.mpr ⟨(n, itm), hmem, rfl⟩

theorem removeKey_key_ne {l : List (String × CacheItem)} {n : String} {p : String × CacheItem}
    (h : p ∈ removeKey l n) : p.1 ≠ n := by
  unfold removeKey at h
  have := (List.mem_filter.mp h).2
  simpa using this

theorem removeKey_subset {l : List (String × CacheItem)} {n : String} {p : String × CacheItem}
    (h : p ∈ removeKey l n) : p ∈ l :=
  (List.mem_filter.mp h).1

theorem keysOf_removeKey_sublist (l : List (String × CacheItem)) (n : String) :
    List.Sublist (keysOf (removeKey l n)) (keysOf l) :=
  (List.filter_sublist l).map Prod.fst

theorem length_removeKey_le (l : List (String × CacheItem)) (n : String) :
    (removeKey l n).length ≤ l.length :=
  List.length_filter_le _ l

theorem removeKey_cons_self {rest : List (String × CacheItem)} {p : String × CacheItem}
    {n : String} (h : p.1 = n) : removeKey (p :: rest) n = removeKey rest n := by
  unfold removeKey
  rw [List.filter_cons_of_neg]
  simp [h]

theorem removeKey_cons_ne {rest : List (String × CacheItem)} {p : String × CacheItem}
    {n : String} (h : p.1 ≠ n) : removeKey (p :: rest) n = p :: removeKey rest n := by
  unfold removeKey
  rw [List.filter_cons_of_pos]
  simp [h]

theorem length_removeKey_lt {l : List (String × CacheItem)} {n : String} {itm : CacheItem}
    (h : (n, itm) ∈ l) : (removeKey l n).length < l.length := by
  induction l with
  | nil => cases h
  | cons p rest ih =>
    rw [List.mem_cons] at h
    rcases h with h | h
    · rw [removeKey_cons_self (by rw [← h])]
      exact Nat.lt_succ_of_le (length_removeKey_le rest n)
    · by_cases hp : p.1 = n
      · rw [removeKey_cons_self hp]
        exact Nat.lt_succ_of_le (length_removeKey_le rest n)
      · rw [removeKey_cons_ne hp]
        simp only [List.length_cons]
        exact Nat.succ_lt_succ (ih h)

theorem removeKey_eq_self {l : List (String × CacheItem)} {n : String}
    (h : n ∉ keysOf l) : removeKey l n = l := by
  unfold removeKey
  apply List.filter_eq_self.mpr
  intro p hp
  have hpn : p.1 ≠ n := by
    intro hcontra
    subst hcontra
    exact h (mem_keysOf.mpr ⟨p.2, hp⟩)
  simpa using hpn

theorem length_removeKey_nodup {l : List (String × CacheItem)} {n : String} {itm : CacheItem}
    (hnd : (keysOf l).Nodup) (h : (n, itm) ∈ l) :
    (removeKey l n).length + 1 = l.length := by
  induction l with
  | nil => cases h
  | cons p rest ih =>
    have hkeys : keysOf (p :: rest) = p.1 :: keysOf rest := rfl
    rw [hkeys, List.nodup_cons] at hnd
    rw [List.mem_cons] at h
    rcases h with h | h
    · have hp1 : p.1 = n := by rw [← h]
      have hn : n ∉ keysOf rest := hp1 ▸ hnd.1
      rw [removeKey_cons_self hp1, removeKey_eq_self hn]
      rfl
    · have hpn : p.1 ≠ n := by
        intro hcontra
        exact hnd.1 (hcontra ▸ mem_keysOf.mpr ⟨itm, h⟩)
      rw [removeKey_cons_ne hpn]
      have hih := ih hnd.2 h
      simp only [List.length_cons]
      omega

theorem goodKeysL_removeKey {l : List (String × CacheItem)} {n : String}
    (h : goodKeysL l) : goodKeysL (removeKey l n) := by
  refine ⟨fun p hp => h.1 p (removeKey_subset hp), ?_⟩
  exact h.2.sublist (keysOf_removeKey_sublist l n)

theorem keysOf_insertKey (l : List (String × CacheItem)) (n : String) (itm : CacheItem) :
    keysOf (insertKey l n itm) = keysOf (removeKey l n) ++ [n] := by
  unfold insertKey keysOf
  rw [List.map_append]
  rfl

theorem goodKeysL_insertKey {l : List (String × CacheItem)} {n : String} {itm : CacheItem}
    (h : goodKeysL l) (hn : n ≠ "") : goodKeysL (insertKey l n itm) := by
  constructor
  · intro p hp
    unfold insertKey at hp
    rcases List.mem_append.mp hp with hp | hp
    · exact h.1 p (removeKey_subset hp)
    · rw [List.mem_singleton] at hp
      rw [hp]
      exact hn
  · rw [keysOf_insertKey]
    rw [List.nodup_append]
    refine ⟨(goodKeysL_removeKey h).2, List.nodup_singleton n, ?_⟩
    intro a ha hb
    rw [List.mem_singleton] at hb
    rcases mem_keysOf.mp ha with ⟨jtm, hj⟩
    exact removeKey_key_ne hj (hb ▸ rfl)

/-! State-level lemmas about the store operations. -/

theorem Size_some {st : FileCache} {l : List (String × CacheItem)}
    (h : st.items = some l) : Size st = l.length := by
  unfold Size
  rw [h]

theorem Size_setItems (st : FileCache) (l : List (String × CacheItem)) :
    Size { st with items := some l } = l.length := rfl

theorem MaxItems_deleteItem (st : FileCache) (n : String) :
    (deleteItem st n).MaxItems = st.MaxItems := by
  unfold deleteItem
  split
  · rfl
  · split <;> rfl

theorem Size_deleteItem_le (st : FileCache) (n : String) :
    Size (deleteItem st n) ≤ Size st := by
  unfold deleteItem
  split
  · exact le_refl _
  · rename_i l hl
    split
    · rw [Size_some hl, Size_setItems]
      exact length_removeKey_le l n
    · exact le_refl _

theorem deleteItem_of_mem {st : FileCache} {l : List (String × CacheItem)} {n : String}
    {itm : CacheItem} (hl : st.items = some l) (hmem : (n, itm) ∈ l) :
    deleteItem st n = { st with items := some (removeKey l n) } := by
  unfold deleteItem
  rw [hl]
  simp [lookupItem_isSome_of_mem hmem]

theorem Size_deleteItem_lt {st : FileCache} {l : List (String × CacheItem)} {n : String}
    {itm : CacheItem} (hl : st.items = some l) (hmem : (n, itm) ∈ l) :
    Size (deleteItem st n) < Size st := by
  rw [deleteItem_of_mem hl hmem, Size_some hl, Size_setItems]
  exact length_removeKey_lt hmem

theorem Size_deleteItem_nodup {st : FileCache} {l : List (String × CacheItem)} {n : String}
    {itm : CacheItem} (hl : st.items = some l) (hnd : (keysOf l).Nodup)
    (hmem : (n, itm) ∈ l) : Size (deleteItem st n) + 1 = Size st := by
  rw [deleteItem_of_mem hl hmem, Size_some hl, Size_setItems]
  exact length_removeKey_nodup hnd hmem

theorem goodKeys_some {st : FileCache} {l : List (String × CacheItem)}
    (h : st.items = some l) : goodKeys st ↔ goodKeysL l := by
  unfold goodKeys
  rw [h]

theorem goodKeys_deleteItem {st : FileCache} (n : String) (h : goodKeys st) :
    goodKeys (deleteItem st n) := by
  unfold deleteItem
  split
  · exact h
  · rename_i l hl
    split
    · exact (goodKeys_some rfl).mpr (goodKeysL_removeKey ((goodKeys_some hl).mp h))
    · exact h

theorem InCache_snd (d : Disk) (st : FileCache) (n : String) :
    (InCache d st n).2 = if changed d st n then deleteItem st n else st := by
  unfold InCache
  split <;> rfl

theorem MaxItems_InCache_snd (d : Disk) (st : FileCache) (n : String) :
    ((InCache d st n).2).MaxItems = st.MaxItems := by
  rw [InCache_snd]
  split
  · exact MaxItems_deleteItem st n
  · rfl

theorem Size_InCache_snd_le (d : Disk) (st : FileCache) (n : String) :
    Size (InCache d st n).2 ≤ Size st := by
  rw [InCache_snd]
  split
  · exact Size_deleteItem_le st n
  · exact le_refl _

theorem goodKeys_InCache_snd (d : Disk) {st : FileCache} (n : String) (h : goodKeys st) :
    goodKeys (InCache d st n).2 := by
  rw [InCache_snd]
  split
  · exact goodKeys_deleteItem n h
  · exact h

/-! The oldest-entry scan of `expireOldest`. -/

theorem oldestScan_nonforce_spec :
    ∀ (l : List (String × CacheItem)) (t : Int) (n : String),
      n ≠ "" → (∀ p ∈ l, p.1 ≠ "") →
      (oldestScan l true (t, n)).2 ≠ "" ∧
      (oldestScan l true (t, n)).1 ≤ t ∧
      (oldestScan l true (t, n) = (t, n) ∨
        ∃ itm, ((oldestScan l true (t, n)).2, itm) ∈ l ∧
          itm.Lastaccess = (oldestScan l true (t, n)).1) ∧
      (∀ q ∈ l, (oldestScan l true (t, n)).1 ≤ q.2.Lastaccess) := by
  intro l
  induction l with
  | nil =>
    intro t n hn _
    exact ⟨hn, le_refl t, Or.inl rfl, by intro q hq; cases hq⟩
  | cons p rest ih =>
    intro t n hn hl
    have hp1 : p.1 ≠ "" := hl p (List.mem_cons_self p rest)
    have hrest : ∀ q ∈ rest, q.1 ≠ "" := fun q hq => hl q (List.mem_cons_of_mem _ hq)
    have hbeq : (n == "") = false := by simpa using hn
    have hstep : oldestScan (p :: rest) true (t, n) =
        oldestScan rest true (if p.2.Lastaccess < t then (p.2.Lastaccess, p.1) else (t, n)) := by
      unfold oldestScan
      rw [List.foldl_cons]
      congr 1
      simp [hbeq]
    by_cases hlt : p.2.Lastaccess < t
    · rw [hstep, if_pos hlt]
      obtain ⟨h1, h2, h3, h4⟩ := ih p.2.Lastaccess p.1 hp1 hrest
      refine ⟨h1, le_of_lt (lt_of_le_of_lt h2 hlt), ?_, ?_⟩
      · rcases h3 with h3 | h3
        · right
          exact ⟨p.2, by rw [h3]; exact List.mem_cons_self p rest, by rw [h3]⟩
        · right
          obtain ⟨itm, hmem, hacc⟩ := h3
          exact ⟨itm, List.mem_cons_of_mem _ hmem, hacc⟩
      · intro q hq
        rw [List.mem_cons] at hq
        rcases hq with hq | hq
        · rw [hq]
          exact h2
        · exact h4 q hq
    · rw [hstep, if_neg hlt]
      obtain ⟨h1, h2, h3, h4⟩ := ih t n hn hrest
      refine ⟨h1, h2, ?_, ?_⟩
      · rcases h3 with h3 | h3
        · exact Or.inl h3
        · right
          obtain ⟨itm, hmem, hacc⟩ := h3
          exact ⟨itm, List.mem_cons_of_mem _ hmem, hacc⟩
      · intro q hq
        rw [List.mem_cons] at hq
        rcases hq with hq | hq
        · rw [hq]
          exact le_trans h2 (le_of_not_lt hlt)
        · exact h4 q hq

theorem expireOldest_spec {st : FileCache} {l : List (String × CacheItem)} (now : Int)
    (hl : st.items = some l) (hne : l ≠ []) (hk : ∀ p ∈ l, p.1 ≠ "") :
    ∃ n itm, (n, itm) ∈ l ∧ (∀ q ∈ l, itm.Lastaccess ≤ q.2.Lastaccess) ∧
      expireOldest st now true = deleteItem st n := by
  obtain ⟨p, rest, rfl⟩ := List.exists_cons_of_ne_nil hne
  have hp1 : p.1 ≠ "" := hk p (List.mem_cons_self p rest)
  have hrest : ∀ q ∈ rest, q.1 ≠ "" := fun q hq => hk q (List.mem_cons_of_mem _ hq)
  have hfirst : oldestScan (p :: rest) true (now, "") =
      oldestScan rest true (p.2.Lastaccess, p.1) := by
    unfold oldestScan
    rw [List.foldl_cons]
    congr 1
  obtain ⟨h1, h2, h3, h4⟩ := oldestScan_nonforce_spec rest p.2.Lastaccess p.1 hp1 hrest
  have hrun : expireOldest st now true = deleteItem st (oldestScan rest true (p.2.Lastaccess, p.1)).2 := by
    simp only [expireOldest, hl, Option.getD_some, hfirst]
    rw [if_pos (by simpa using h1)]
  rcases h3 with h3 | h3
  · refine ⟨p.1, p.2, List.mem_cons_self p rest, ?_, ?_⟩
    · intro q hq
      rw [List.mem_cons] at hq
      rcases hq with hq | hq
      · rw [hq]
      · have := h4 q hq
        rw [h3] at this
        exact this
    · rw [hrun, h3]
  · obtain ⟨itm, hmem, hacc⟩ := h3
    refine ⟨(oldestScan rest true (p.2.Lastaccess, p.1)).2, itm,
      List.mem_cons_of_mem _ hmem, ?_, hrun⟩
    intro q hq
    rw [List.mem_cons] at hq
    rw [hacc]
    rcases hq with hq | hq
    · rw [hq]
      exact h2
    · exact h4 q hq

theorem MaxItems_expireOldest (st : FileCache) (now : Int) (force : Bool) :
    (expireOldest st now force).MaxItems = st.MaxItems := by
  simp only [expireOldest]
  split
  · exact MaxItems_deleteItem st _
  · rfl

theorem goodKeys_expireOldest {st : FileCache} (now : Int) (force : Bool)
    (h : goodKeys st) : goodKeys (expireOldest st now force) := by
  simp only [expireOldest]
  split
  · exact goodKeys_deleteItem _ h
  · exact h

theorem Size_expireOldest_le (st : FileCache) (now : Int) (force : Bool) :
    Size (expireOldest st now force) ≤ Size st := by
  simp only [expireOldest]
  split
  · exact Size_deleteItem_le st _
  · exact le_refl _

/-! Lemmas about `addItem` and the two insertion entry points. -/

theorem MaxItems_setItems (st : FileCache) (l : List (String × CacheItem)) :
    (setItems st l).MaxItems = st.MaxItems := rfl

theorem Size_setItems_list (st : FileCache) (l : List (String × CacheItem)) :
    Size (setItems st l) = l.length := rfl

theorem goodKeys_setItems {l : List (String × CacheItem)} (st : FileCache)
    (h : goodKeysL l) : goodKeys (setItems st l) :=
  (goodKeys_some rfl).mpr h

theorem MaxItems_addItemInstall (d : Disk) (st2 : FileCache) (f : String) (itm : CacheItem) :
    ((addItemInstall d st2 f itm).1).MaxItems = st2.MaxItems := by
  simp only [addItemInstall]
  split
  · rfl
  · split
    all_goals
      rw [MaxItems_InCache_snd, MaxItems_setItems]

theorem Size_addItemInstall_le (d : Disk) (st2 : FileCache) (f : String) (itm : CacheItem) :
    Size (addItemInstall d st2 f itm).1 ≤ Size st2 + 1 := by
  simp only [addItemInstall]
  split
  · exact Nat.le_succ_of_le (le_refl _)
  · rename_i l heq
    have h3 : Size (setItems st2 (insertKey l f itm)) ≤ Size st2 + 1 := by
      rw [Size_setItems_list, Size_some heq]
      unfold insertKey
      rw [List.length_append]
      simpa using Nat.succ_le_succ (length_removeKey_le l f)
    split
    all_goals
      exact le_trans (Size_InCache_snd_le d _ f) h3

theorem goodKeys_addItemInstall (d : Disk) {st2 : FileCache} {f : String} (itm : CacheItem)
    (hf : f ≠ "") (h : goodKeys st2) : goodKeys (addItemInstall d st2 f itm).1 := by
  simp only [addItemInstall]
  split
  · exact h
  · rename_i l heq
    have h3 : goodKeys (setItems st2 (insertKey l f itm)) :=
      goodKeys_setItems st2 (goodKeysL_insertKey ((goodKeys_some heq).mp h) hf)
    split
    all_goals
      exact goodKeys_InCache_snd d f h3

theorem MaxItems_addItem (d : Disk) (now : Int) (st : FileCache) (f : String) :
    ((addItem d now st f).1).MaxItems = st.MaxItems := by
  have h1 := MaxItems_InCache_snd d st f
  simp only [addItem]
  split
  · rfl
  · split
    · exact h1
    · split
      · split
        · rw [MaxItems_deleteItem]
          exact h1
        · exact h1
      · split
        · rw [MaxItems_addItemInstall, MaxItems_deleteItem]
          exact h1
        · rw [MaxItems_addItemInstall]
          exact h1

theorem Size_addItem_le (d : Disk) (now : Int) (st : FileCache) (f : String) :
    Size (addItem d now st f).1 ≤ Size st + 1 := by
  have h1 := Size_InCache_snd_le d st f
  simp only [addItem]
  split
  · exact Nat.le_succ_of_le (le_refl _)
  · split
    · exact Nat.le_succ_of_le h1
    · split
      · split
        · exact Nat.le_succ_of_le (le_trans (Size_deleteItem_le _ _) h1)
        · exact Nat.le_succ_of_le h1
      · split
        · exact le_trans (Size_addItemInstall_le d _ f _)
            (Nat.succ_le_succ (le_trans (Size_deleteItem_le _ _) h1))
        · exact le_trans (Size_addItemInstall_le d _ f _) (Nat.succ_le_succ h1)

theorem goodKeys_addItem (d : Disk) (now : Int) {st : FileCache} {f : String}
    (hf : f ≠ "") (h : goodKeys st) : goodKeys (addItem d now st f).1 := by
  have h1 : goodKeys (InCache d st f).2 := goodKeys_InCache_snd d f h
  simp only [addItem]
  split
  · exact h
  · split
    · exact h1
    · split
      · split
        · exact goodKeys_deleteItem _ h1
        · exact h1
      · split
        · exact goodKeys_addItemInstall d _ hf (goodKeys_deleteItem _ h1)
        · exact goodKeys_addItemInstall d _ hf h1

theorem CacheNow_at_capacity (d : Disk) (now : Int) (st : FileCache) (f : String)
    (h : (Size st : Int) = st.MaxItems) :
    CacheNow d now st f = addItem d now (expireOldest st now true) f := by
  unfold CacheNow
  rw [if_pos h]

theorem CacheNow_below_capacity (d : Disk) (now : Int) (st : FileCache) (f : String)
    (h : (Size st : Int) ≠ st.MaxItems) :
    CacheNow d now st f = addItem d now st f := by
  unfold CacheNow
  rw [if_neg h]

theorem cacheNow_step (d : Disk) (now : Int) {st : FileCache} {f : String}
    (hpos : 0 < st.MaxItems) (hgk : goodKeys st) (hf : f ≠ "")
    (hsz : (Size st : Int) ≤ st.MaxItems) :
    (Size (CacheNow d now st f).1 : Int) ≤ st.MaxItems ∧ goodKeys (CacheNow d now st f).1 ∧
      ((CacheNow d now st f).1).MaxItems = st.MaxItems := by
  by_cases heq : (Size st : Int) = st.MaxItems
  · rw [CacheNow_at_capacity d now st f heq]
    have hszpos : 0 < Size st := by omega
    cases hitems : st.items with
    | none =>
      exfalso
      have h0 : Size st = 0 := by
        unfold Size
        rw [hitems]
      omega
    | some l =>
      have hlne : l ≠ [] := by
        intro hcontra
        rw [hcontra] at hitems
        rw [Size_some hitems] at hszpos
        simp at hszpos
      have hgl := (goodKeys_some hitems).mp hgk
      obtain ⟨n, itm, hmem, hmin, hrun⟩ := expireOldest_spec now hitems hlne hgl.1
      rw [hrun]
      have hsize1 : Size (deleteItem st n) + 1 = Size st :=
        Size_deleteItem_nodup hitems hgl.2 hmem
      have h2 : Size (addItem d now (deleteItem st n) f).1 ≤ Size (deleteItem st n) + 1 :=
        Size_addItem_le d now (deleteItem st n) f
      refine ⟨?_, goodKeys_addItem d now hf (goodKeys_deleteItem n hgk), ?_⟩
      · omega
      · rw [MaxItems_addItem, MaxItems_deleteItem]
  · rw [CacheNow_below_capacity d now st f heq]
    have h2 : Size (addItem d now st f).1 ≤ Size st + 1 := Size_addItem_le d now st f
    refine ⟨by omega, goodKeys_addItem d now hf hgk, MaxItems_addItem d now st f⟩

theorem cacheNow_fold (d : Disk) (now : Int) :
    ∀ (files : List String) (st : FileCache), 0 < st.MaxItems → goodKeys st →
      (∀ f ∈ files, f ≠ "") → (Size st : Int) ≤ st.MaxItems →
      (Size (files.foldl (fun s f => (CacheNow d now s f).1) st) : Int) ≤ st.MaxItems ∧
      goodKeys (files.foldl (fun s f => (CacheNow d now s f).1) st) ∧
      (files.foldl (fun s f => (CacheNow d now s f).1) st).MaxItems = st.MaxItems := by
  intro files
  induction files with
  | nil =>
    intro st h1 h2 _ h4
    exact ⟨h4, h2, rfl⟩
  | cons f rest ih =>
    intro st h1 h2 h3 h4
    have hf : f ≠ "" := h3 f (List.mem_cons_self f rest)
    have hrest : ∀ g ∈ rest, g ≠ "" := fun g hg => h3 g (List.mem_cons_of_mem _ hg)
    obtain ⟨s1, s2, s3⟩ := cacheNow_step d now h1 h2 hf h4
    rw [List.foldl_cons]
    obtain ⟨t1, t2, t3⟩ := ih ((CacheNow d now st f).1) (by rw [s3]; exact h1) s2 hrest
      (by rw [s3]; exact s1)
    exact ⟨by rw [s3] at t1; exact t1, t2, by rw [t3, s3]⟩

/-! Lemmas about the maintenance sweep. -/

theorem sweepExpired_foldl_preserves (d : Disk) (now : Int) :
    ∀ (ns : List String) (st : FileCache), goodKeys st →
      goodKeys (ns.foldl (fun s n => if itemExpired d s now n then deleteItem s n else s) st) ∧
      (ns.foldl (fun s n => if itemExpired d s now n then deleteItem s n else s) st).MaxItems =
        st.MaxItems := by
  intro ns
  induction ns with
  | nil =>
    intro st hg
    exact ⟨hg, rfl⟩
  | cons n rest ih =>
    intro st hg
    rw [List.foldl_cons]
    have hstep : goodKeys (if itemExpired d st now n then deleteItem st n else st) ∧
        (if itemExpired d st now n then deleteItem st n else st).MaxItems = st.MaxItems := by
      split
      · exact ⟨goodKeys_deleteItem n hg, MaxItems_deleteItem st n⟩
      · exact ⟨hg, rfl⟩
    obtain ⟨ih1, ih2⟩ := ih _ hstep.1
    exact ⟨ih1, by rw [ih2, hstep.2]⟩

theorem goodKeys_sweepExpired (d : Disk) (now : Int) {st : FileCache} (hg : goodKeys st) :
    goodKeys (sweepExpired d now st) :=
  (sweepExpired_foldl_preserves d now _ st hg).1

theorem MaxItems_sweepExpired (d : Disk) (now : Int) {st : FileCache} (hg : goodKeys st) :
    (sweepExpired d now st).MaxItems = st.MaxItems :=
  (sweepExpired_foldl_preserves d now _ st hg).2

theorem Size_correctCapacity_le (now : Int) :
    ∀ (fuel : Nat) (st : FileCache), goodKeys st → 0 ≤ st.MaxItems → Size st ≤ fuel →
      (Size (correctCapacity now fuel st) : Int) ≤ st.MaxItems := by
  intro fuel
  induction fuel with
  | zero =>
    intro st _ hm hsz
    simp only [correctCapacity]
    omega
  | succ n ih =>
    intro st hg hm hsz
    simp only [correctCapacity]
    split
    · rename_i hgt
      have hpos : 0 < Size st := by omega
      cases hitems : st.items with
      | none =>
        exfalso
        have h0 : Size st = 0 := by
          unfold Size
          rw [hitems]
        omega
      | some l =>
        have hlne : l ≠ [] := by
          intro hcontra
          rw [hcontra] at hitems
          rw [Size_some hitems] at hpos
          simp at hpos
        obtain ⟨nm, itm, hmem, _, hrun⟩ :=
          expireOldest_spec now hitems hlne ((goodKeys_some hitems).mp hg).1
        have hlt : Size (expireOldest st now true) < Size st := by
          rw [hrun]
          exact Size_deleteItem_lt hitems hmem
        have hm' : (expireOldest st now true).MaxItems = st.MaxItems :=
          MaxItems_expireOldest st now true
        have hrec := ih (expireOldest st now true) (goodKeys_expireOldest now true hg)
          (by rw [hm']; exact hm) (by omega)
        rw [hm'] at hrec
        exact hrec
    · rename_i hle
      omega

/-! Lemmas about `changed`, `expired`, `InCache` and `cacheFile`. -/

theorem lookupItem_removeKey_self (l : List (String × CacheItem)) (n : String) :
    lookupItem (removeKey l n) n = none := by
  have hf : List.find? (fun p : String × CacheItem => p.1 == n) (removeKey l n) = none :=
    List.find?_eq_none.mpr (fun p hp => by simpa using removeKey_key_ne hp)
  unfold lookupItem
  rw [hf]
  rfl

theorem getItem_deleteItem_self (st : FileCache) (n : String) :
    getItem (deleteItem st n) n = none := by
  cases hitems : st.items with
  | none =>
    have hd : deleteItem st n = st := by
      unfold deleteItem
      rw [hitems]
    rw [hd]
    unfold getItem
    rw [hitems]
  | some l =>
    by_cases hv : (lookupItem l n).isSome = true
    · have hd : deleteItem st n = { st with items := some (removeKey l n) } := by
        unfold deleteItem
        rw [hitems]
        simp [hv]
      rw [hd]
      exact lookupItem_removeKey_self l n
    · have hd : deleteItem st n = st := by
        unfold deleteItem
        rw [hitems]
        simp [hv]
      rw [hd]
      unfold getItem
      rw [hitems]
      cases hl : lookupItem l n with
      | none => exact hl
      | some itm =>
        rw [hl] at hv
        simp at hv

theorem changed_true_of_getItem_none {d : Disk} {st : FileCache} {n : String}
    (h : getItem st n = none) : changed d st n = true := by
  unfold changed
  rw [h]

theorem changed_true_of_stat_none {d : Disk} {st : FileCache} {n : String} {itm : CacheItem}
    (hgi : getItem st n = some itm) (hstat : d.stat n = none) : changed d st n = true := by
  unfold changed
  rw [hgi, hstat]

theorem changed_true_of_modified {d : Disk} {st : FileCache} {n : String} {itm : CacheItem}
    {fi : FileInfo} (hgi : getItem st n = some itm) (hstat : d.stat n = some fi)
    (hne : itm.Modified ≠ fi.modTime) : changed d st n = true := by
  unfold changed
  rw [hgi, hstat]
  simpa using hne

theorem changed_false_of {d : Disk} {st : FileCache} {n : String} {itm : CacheItem}
    {fi : FileInfo} (hgi : getItem st n = some itm) (hstat : d.stat n = some fi)
    (hmod : itm.Modified = fi.modTime) : changed d st n = false := by
  unfold changed
  rw [hgi, hstat]
  simpa using hmod

theorem changed_false_inv {d : Disk} {st : FileCache} {n : String}
    (h : changed d st n = false) :
    ∃ itm fi, getItem st n = some itm ∧ d.stat n = some fi ∧ itm.Modified = fi.modTime := by
  unfold changed at h
  cases hgi : getItem st n with
  | none =>
    rw [hgi] at h
    cases h
  | some itm =>
    rw [hgi] at h
    cases hstat : d.stat n with
    | none =>
      rw [hstat] at h
      cases h
    | some fi =>
      rw [hstat] at h
      exact ⟨itm, fi, rfl, rfl, by simpa using h⟩

theorem changed_true_iff {d : Disk} {st : FileCache} {n : String} :
    changed d st n = true ↔
      (getItem st n = none ∨ d.stat n = none ∨
        ∃ itm fi, getItem st n = some itm ∧ d.stat n = some fi ∧
          itm.Modified ≠ fi.modTime) := by
  constructor
  · intro h
    unfold changed at h
    cases hgi : getItem st n with
    | none => exact Or.inl rfl
    | some itm =>
      rw [hgi] at h
      cases hstat : d.stat n with
      | none => exact Or.inr (Or.inl rfl)
      | some fi =>
        rw [hstat] at h
        exact Or.inr (Or.inr ⟨itm, fi, rfl, rfl, by simpa using h⟩)
  · intro h
    rcases h with h | h | ⟨itm, fi, hgi, hstat, hne⟩
    · exact changed_true_of_getItem_none h
    · cases hgi : getItem st n with
      | none => exact changed_true_of_getItem_none hgi
      | some itm => exact changed_true_of_stat_none hgi h
    · exact changed_true_of_modified hgi hstat hne

theorem expired_true_iff {st : FileCache} {now : Int} {n : String} {itm : CacheItem}
    (hgi : getItem st n = some itm) :
    expired st now n = true ↔ st.ExpireItem ≤ roundSec (now - itm.Lastaccess) := by
  have he : expired st now n =
      (if st.ExpireItem ≤ roundSec (now - itm.Lastaccess) then true else false) := by
    unfold expired
    rw [hgi]
  rw [he]
  split
  · rename_i hle
    simp [hle]
  · rename_i hgt
    simp [hgt]

theorem InCache_eq_changed {d : Disk} {st : FileCache} {n : String}
    (h : changed d st n = true) : InCache d st n = (false, deleteItem st n) := by
  unfold InCache
  rw [if_pos h]

theorem InCache_eq_fresh {d : Disk} {st : FileCache} {n : String}
    (h : changed d st n = false) : InCache d st n = (true, st) := by
  obtain ⟨itm, fi, hgi, _, _⟩ := changed_false_inv h
  unfold InCache
  rw [if_neg (by simp [h])]
  unfold getItem at hgi
  cases hitems : st.items with
  | none =>
    rw [hitems] at hgi
    cases hgi
  | some l =>
    rw [hitems] at hgi
    have hgi' : lookupItem l n = some itm := hgi
    show ((lookupItem l n).isSome, st) = (true, st)
    rw [hgi']
    rfl

theorem cacheFile_ok_inv {d : Disk} {now : Int} {p : String} {ms : Int} {itm : CacheItem}
    (h : cacheFile d now p ms = Except.ok itm) :
    ∃ fi, d.stat p = some fi ∧ fi.isDir = false ∧ ¬ms < fi.size ∧
      d.read p = some itm.content ∧ itm.Size = fi.size ∧ itm.Modified = fi.modTime ∧
      itm.Lastaccess = now := by
  unfold cacheFile at h
  split at h
  · cases h
  · rename_i fi hstat
    split at h
    · cases h
    · rename_i hdir
      split at h
      · cases h
      · rename_i hbig
        split at h
        · cases h
        · rename_i content hread
          have hi := Except.ok.inj h
          refine ⟨fi, hstat, by simpa using hdir, hbig, ?_, ?_, ?_, ?_⟩
          · rw [hread, ← hi]
          · rw [← hi]
          · rw [← hi]
          · rw [← hi]

/-! Lemmas about `ReadFile`. -/

theorem ReadFile_miss (d : Disk) (now : Int) (sq : Bool) (st : FileCache) (f : String)
    {C : Bytes} (hgi : getItem st f = none) (hread : d.read f = some C) :
    (ReadFile d now sq st f).1 = some C ∧
    (ReadFile d now sq st f).2.1 = (if sq then none else some CacheErr.itemNotInCache) := by
  have hch : changed d st f = true := changed_true_of_getItem_none hgi
  simp only [ReadFile]
  rw [InCache_eq_changed hch]
  simp [hread]

theorem ReadFile_hit (d : Disk) (now : Int) (sq : Bool) (st : FileCache) (f : String)
    {itm : CacheItem} {fi : FileInfo} (hgi : getItem st f = some itm)
    (hstat : d.stat f = some fi) (hmod : itm.Modified = fi.modTime) :
    (ReadFile d now sq st f).1 = some itm.content ∧ (ReadFile d now sq st f).2.1 = none := by
  have hch : changed d st f = false := changed_false_of hgi hstat hmod
  simp only [ReadFile]
  rw [InCache_eq_fresh hch]
  simp [GetItem, hgi]

/-! The claims. -/

/-- C1: the claim states that with MaxItems = 0 no entry is ever
admitted by Cache or CacheNow.  Evaluating the code refutes this: on an
active empty cache with MaxItems = 0, both CacheNow and the
Cache-send-plus-asynchronous-install path admit the file — the
insertion path consults MaxItems only to evict an oldest entry, and the
(empty) store has none to evict, so nothing blocks the add.  The spec
and the package documentation (which says items cannot be stored until
MaxItems is made positive) are taken as the intent; the missing
admission check is the code bug. -/
theorem C1_maxItemsZero_still_admits :
    stEmpty0.MaxItems = 0 ∧
    (CacheNow dF 0 stEmpty0 "f").2 = none ∧
    getItem (CacheNow dF 0 stEmpty0 "f").1 "f" = some itmF ∧
    Size (CacheNow dF 0 stEmpty0 "f").1 = 1 ∧
    getItem (cacheAsync dF 0 stEmpty0 "f").1 "f" = some itmF := by
  decide

/-- C2: a read on a Stopped cache does return the disk bytes (a
graceful miss for the caller), but the claim further requires the
asynchronous Cache submission spawned on the miss never to panic or
wedge.  Evaluating the code shows the spawned channel send panics on
the closed ingestion channel after Stop (a Go runtime panic that
crashes the process) and blocks forever on the nil channel of a fresh
cache. -/
theorem C2_stopped_read_spawn_crashes :
    (ReadFile dF 0 true stStopped "f").1 = some [1, 2, 3] ∧
    (ReadFile dF 0 true stStopped "f").2.1 = none ∧
    (ReadFile dF 0 true stStopped "f").2.2.2 = some SendOutcome.panicked ∧
    (ReadFile dF 0 true NewDefaultCache "f").2.2.2 = some SendOutcome.blockedForever := by
  decide

/-- C3 counterexample: an entry whose age is far past a nonzero
ExpireItem (so itemExpired is true — the entry is stale) while the file
is unchanged on disk: InCache nevertheless returns true and leaves the
state untouched, refuting the claim that InCache performs the full
freshness check (including the aged-out test) and evicts whenever the
entry is stale. -/
theorem C3_inCache_ignores_age_cex :
    stAged.ExpireItem ≠ 0 ∧
    itemExpired dF stAged twoHours "f" = true ∧
    InCache dF stAged "f" = (true, stAged) := by
  decide

/-- C3 (amended): InCache performs only the changed-on-disk stat test,
not the aged-out test: it returns the negation of changed, deletes the
entry exactly when changed holds, and in particular after the file is
modified on disk the next InCache returns false and removes the entry
(freshness re-verified via a live stat). -/
theorem C3_inCache_changed_only :
    (∀ (d : Disk) (st : FileCache) (n : String),
      (InCache d st n).1 = !(changed d st n)) ∧
    (∀ (d : Disk) (st : FileCache) (n : String), changed d st n = true →
      (InCache d st n).2 = deleteItem st n ∧ getItem (InCache d st n).2 n = none) ∧
    (∀ (d : Disk) (st : FileCache) (n : String) (itm : CacheItem) (fi : FileInfo),
      getItem st n = some itm → d.stat n = some fi → itm.Modified ≠ fi.modTime →
      (InCache d st n).1 = false ∧ getItem (InCache d st n).2 n = none) := by
  refine ⟨?_, ?_, ?_⟩
  · intro d st n
    cases hc : changed d st n with
    | true =>
      rw [InCache_eq_changed hc]
      rfl
    | false =>
      rw [InCache_eq_fresh hc]
      rfl
  · intro d st n hc
    rw [InCache_eq_changed hc]
    exact ⟨rfl, getItem_deleteItem_self st n⟩
  · intro d st n itm fi hgi hstat hne
    have hc := changed_true_of_modified hgi hstat hne
    rw [InCache_eq_changed hc]
    exact ⟨rfl, getItem_deleteItem_self st n⟩

/-- C3 witness: on the concrete state whose stored entry for f is out
of date with respect to the disk, InCache returns false and the entry
is gone afterwards. -/
theorem C3_inCache_changed_only_witness :
    (InCache dF stChanged "f").1 = false ∧
    getItem (InCache dF stChanged "f").2 "f" = none :=
  C3_inCache_changed_only.2.2 dF stChanged "f" itmChanged
    { size := 3, modTime := 1, isDir := false } rfl rfl (by decide)

/-- C4: itemExpired is true exactly when the changed-on-disk test holds
(entry absent, stat failed, or the disk modification time differs from
the stored Modified) OR ExpireItem ≠ 0 and the age since Lastaccess,
rounded to whole seconds, has reached ExpireItem; so the changed test
applies even with ExpireItem = 0 and the aged-out test is skipped
entirely with ExpireItem = 0. -/
theorem C4_itemExpired_decomposition :
    ∀ (d : Disk) (st : FileCache) (now : Int) (n : String),
      itemExpired d st now n = true ↔
        ((getItem st n = none ∨ d.stat n = none ∨
          ∃ itm fi, getItem st n = some itm ∧ d.stat n = some fi ∧
            itm.Modified ≠ fi.modTime) ∨
         (st.ExpireItem ≠ 0 ∧ ∃ itm, getItem st n = some itm ∧
           st.ExpireItem ≤ roundSec (now - itm.Lastaccess))) := by
  intro d st now n
  by_cases hch : changed d st n = true
  · have hlhs : itemExpired d st now n = true := by
      unfold itemExpired
      rw [if_pos hch]
    rw [hlhs]
    exact iff_of_true rfl (Or.inl (changed_true_iff.mp hch))
  · have hch' : changed d st n = false := by
      simpa using hch
    have hlhs : itemExpired d st now n = (st.ExpireItem != 0 && expired st now n) := by
      unfold itemExpired
      rw [if_neg (by simp [hch'])]
      cases hb : (st.ExpireItem != 0 && expired st now n) <;> simp [hb]
    rw [hlhs]
    constructor
    · intro hb
      rw [Bool.and_eq_true] at hb
      obtain ⟨itm, fi, hgi, hstat, hmod⟩ := changed_false_inv hch'
      exact Or.inr ⟨by simpa using hb.1, itm, hgi, (expired_true_iff hgi).mp hb.2⟩
    · intro hr
      rcases hr with hr | hr
      · exact absurd (changed_true_iff.mpr hr) (by simp [hch'])
      · obtain ⟨hne, itm, hgi, hle⟩ := hr
        rw [Bool.and_eq_true]
        exact ⟨by simpa using hne, (expired_true_iff hgi).mpr hle⟩

/-- C4 witness: the decomposition instantiated on the concrete aged
state. -/
theorem C4_itemExpired_decomposition_witness :
    itemExpired dF stAged twoHours "f" = true ↔
      ((getItem stAged "f" = none ∨ dF.stat "f" = none ∨
        ∃ itm fi, getItem stAged "f" = some itm ∧ dF.stat "f" = some fi ∧
          itm.Modified ≠ fi.modTime) ∨
       (stAged.ExpireItem ≠ 0 ∧ ∃ itm, getItem stAged "f" = some itm ∧
         stAged.ExpireItem ≤ roundSec (twoHours - itm.Lastaccess))) :=
  C4_itemExpired_decomposition dF stAged twoHours "f"

/-- C5 counterexample: on a disk whose stat reports 5 bytes while the
read returns 3 bytes (the file changed mid-read), cacheFile still
succeeds and produces an entry whose recorded Size (the stat size)
differs from the length of the loaded content — the claim says such a
load is treated as failed and no entry is produced. -/
theorem C5_midread_mismatch_cex :
    cacheFile dMid 0 "f" 100 = Except.ok itmMid ∧
    itmMid.Size ≠ (itmMid.content.length : Int) :=
  ⟨rfl, by decide⟩

/-- C5 (amended): a successful cacheFile load records Size equal to the
stat-observed disk size and content equal to the bytes read, with no
consistency check between the two: a read whose length differs from the
stat size still yields an entry. -/
theorem C5_load_size_from_stat :
    ∀ (d : Disk) (now : Int) (p : String) (ms : Int) (itm : CacheItem),
      cacheFile d now p ms = Except.ok itm →
      ∃ fi, d.stat p = some fi ∧ itm.Size = fi.size ∧ d.read p = some itm.content ∧
        itm.Modified = fi.modTime ∧ itm.Lastaccess = now := by
  intro d now p ms itm h
  obtain ⟨fi, hstat, _, _, hread, hsz, hmod, hacc⟩ := cacheFile_ok_inv h
  exact ⟨fi, hstat, hsz, hread, hmod, hacc⟩

/-- C5 witness: the amended statement instantiated on the mid-read
mismatch disk. -/
theorem C5_load_size_from_stat_witness :
    ∃ fi, dMid.stat "f" = some fi ∧ itmMid.Size = fi.size ∧
      dMid.read "f" = some itmMid.content ∧ itmMid.Modified = fi.modTime ∧
      itmMid.Lastaccess = 0 :=
  C5_load_size_from_stat dMid 0 "f" 100 itmMid rfl

/-- C6: whenever a complete maintenance sweep of the vacuum loop
(expired-entry purge followed by the repeated oldest-eviction
correction) finishes and MaxItems > 0, the store holds at most MaxItems
entries.  goodKeys is the well-formedness invariant of every reachable
store (each key bound once, no empty-string key — a key enters only via
a successful stat, which fails on the empty path). -/
theorem C6_sweep_enforces_capacity :
    ∀ (d : Disk) (now : Int) (st : FileCache), 0 < st.MaxItems → goodKeys st →
      (Size (vacuumTick d now st) : Int) ≤ st.MaxItems := by
  intro d now st hpos hg
  unfold vacuumTick
  split
  · rename_i hnull
    unfold isCacheNull at hnull
    rw [Option.isNone_iff_eq_none] at hnull
    have h0 : Size st = 0 := by
      unfold Size
      rw [hnull]
    omega
  · have hg1 := goodKeys_sweepExpired d now hg
    have hm1 := MaxItems_sweepExpired d now hg
    have hb := Size_correctCapacity_le now (Size (sweepExpired d now st))
      (sweepExpired d now st) hg1 (by rw [hm1]; omega) (le_refl _)
    rw [hm1] at hb
    exact hb

/-- C6 witness: a sweep of the two-entry store with MaxItems = 1 ends
with at most one entry. -/
theorem C6_sweep_enforces_capacity_witness :
    0 < stTwo.MaxItems ∧ goodKeys stTwo ∧
      (Size (vacuumTick dAB 0 stTwo) : Int) ≤ stTwo.MaxItems :=
  ⟨by decide, by decide, C6_sweep_enforces_capacity dAB 0 stTwo (by decide) (by decide)⟩

/-- C7 counterexample: with MaxItems = 0 the (empty) store is at
MaxItems, the pre-insertion capacity check runs but evicts no entry —
there is none to evict — and the new entry is still added, refuting
"exactly one entry — the one with the oldest Lastaccess — is evicted
before the new entry is added". -/
theorem C7_at_capacity_empty_cex :
    (Size stEmpty0 : Int) = stEmpty0.MaxItems ∧
    expireOldest stEmpty0 0 true = stEmpty0 ∧
    Size (CacheNow dF 0 stEmpty0 "f").1 = 1 := by
  decide

/-- C7 (amended): when the store is at MaxItems and nonempty (with
well-formed keys), Cache and CacheNow both first evict exactly one
entry, one whose Lastaccess is minimal among current entries; on an
empty store at capacity (possible only with MaxItems = 0) the eviction
pass removes nothing. -/
theorem C7_capacity_evicts_one_oldest :
    ∀ (d : Disk) (now : Int) (st : FileCache) (f : String)
      (l : List (String × CacheItem)),
      st.items = some l → l ≠ [] → goodKeysL l → (Size st : Int) = st.MaxItems →
      ∃ n itm, (n, itm) ∈ l ∧ (∀ q ∈ l, itm.Lastaccess ≤ q.2.Lastaccess) ∧
        CacheNow d now st f = addItem d now (deleteItem st n) f ∧
        (Cache st now f).1 = deleteItem st n ∧
        Size (deleteItem st n) + 1 = Size st := by
  intro d now st f l hl hne hgl hcap
  obtain ⟨n, itm, hmem, hmin, hrun⟩ := expireOldest_spec now hl hne hgl.1
  refine ⟨n, itm, hmem, hmin, ?_, ?_, Size_deleteItem_nodup hl hgl.2 hmem⟩
  · rw [CacheNow_at_capacity d now st f hcap, hrun]
  · have hfst : (Cache st now f).1 =
        (if (Size st : Int) = st.MaxItems then expireOldest st now true else st) := rfl
    rw [hfst, if_pos hcap, hrun]

/-- C7 witness: on the two-entry store at capacity 2, the insertion
entry points evict exactly the oldest entry first. -/
theorem C7_capacity_evicts_one_oldest_witness :
    ∃ n itm, (n, itm) ∈ [("a", itmA), ("b", itmB)] ∧
      (∀ q ∈ [("a", itmA), ("b", itmB)], itm.Lastaccess ≤ q.2.Lastaccess) ∧
      CacheNow dAB 5 stTwoFull "c" = addItem dAB 5 (deleteItem stTwoFull n) "c" ∧
      (Cache stTwoFull 5 "c").1 = deleteItem stTwoFull n ∧
      Size (deleteItem stTwoFull n) + 1 = Size stTwoFull :=
  C7_capacity_evicts_one_oldest dAB 5 stTwoFull "c" [("a", itmA), ("b", itmB)]
    rfl (by decide) (by decide) (by decide)

/-- C8: each sequential CacheNow call preserves Size ≤ MaxItems when
MaxItems > 0 (for a well-formed store and a nonempty path), and
consequently any sequence of sequential CacheNow calls — in particular
1000 distinct regular files — starting from the empty active cache with
MaxItems = 5 ends with Size ≤ 5. -/
theorem C8_cacheNow_bounded :
    (∀ (d : Disk) (now : Int) (st : FileCache) (f : String),
      0 < st.MaxItems → goodKeys st → f ≠ "" → (Size st : Int) ≤ st.MaxItems →
      (Size (CacheNow d now st f).1 : Int) ≤ st.MaxItems) ∧
    (∀ (d : Disk) (now : Int) (files : List String), (∀ f ∈ files, f ≠ "") →
      (Size (files.foldl (fun s f => (CacheNow d now s f).1) startFive) : Int) ≤ 5) := by
  constructor
  · intro d now st f h1 h2 h3 h4
    exact (cacheNow_step d now h1 h2 h3 h4).1
  · intro d now files hf
    exact (cacheNow_fold d now files startFive (by decide) (by decide) hf (by decide)).1

/-- C8 witness: one CacheNow call on the two-entry store at capacity
keeps the size within MaxItems. -/
theorem C8_cacheNow_bounded_witness :
    0 < stTwoFull.MaxItems ∧ goodKeys stTwoFull ∧
      (Size (CacheNow dAB 5 stTwoFull "c").1 : Int) ≤ stTwoFull.MaxItems :=
  ⟨by decide, by decide,
    C8_cacheNow_bounded.1 dAB 5 stTwoFull "c" (by decide) (by decide) (by decide) (by decide)⟩

/-- C9: ReadFile round-trips the file contents C on both paths: on a
miss (entry absent) it returns the bytes read from disk and reports
ItemNotInCache exactly when squelching is off (nil when squelched); on
a hit whose entry was produced by a successful cacheFile load from the
same, unchanged disk, it returns the cached bytes — equal to C — with
no error. -/
theorem C9_readFile_roundtrip :
    ∀ (d : Disk) (now t : Int) (sq : Bool) (st : FileCache) (f : String) (C : Bytes),
      d.read f = some C →
      (getItem st f = none →
        (ReadFile d now sq st f).1 = some C ∧
        (ReadFile d now sq st f).2.1 = (if sq then none else some CacheErr.itemNotInCache)) ∧
      (∀ itm, getItem st f = some itm → cacheFile d t f st.MaxSize = Except.ok itm →
        (ReadFile d now sq st f).1 = some C ∧ (ReadFile d now sq st f).2.1 = none) := by
  intro d now t sq st f C hread
  constructor
  · intro hgi
    exact ReadFile_miss d now sq st f hgi hread
  · intro itm hgi hcf
    obtain ⟨fi, hstat, _, _, hreadc, _, hmod, _⟩ := cacheFile_ok_inv hcf
    have hC : itm.content = C := by
      rw [hread] at hreadc
      exact (Option.some.inj hreadc).symm
    have hhit := ReadFile_hit d now sq st f hgi hstat hmod
    rw [hC] at hhit
    exact hhit

/-- C9 witness: the warm path on the concrete cached state returns the
file's bytes with no error. -/
theorem C9_readFile_roundtrip_witness :
    (ReadFile dF 5 true stAged "f").1 = some [1, 2, 3] ∧
    (ReadFile dF 5 true stAged "f").2.1 = none :=
  (C9_readFile_roundtrip dF 5 0 true stAged "f" [1, 2, 3] rfl).2 itmF rfl rfl

/-- C10: Remove never produces its declared error value: the error
component of its result is nil in every case — item absent, item
deleted, and deletion found ineffective alike. -/
theorem C10_remove_error_always_nil :
    ∀ (st : FileCache) (n : String), (Remove st n).2.1 = none := by
  intro st n
  simp only [Remove]
  split
  · rfl
  · rfl

end Filecache
